import Mathlib

/-!
# Verification of the babble explanation-to-labeling-function core

The repository ships only a tutorial notebook calling the `babble` package
(`BabbleStream`, the filter bank, the labeling-function compiler). The package
code itself is not in the tree, so the core is modelled here from the
specification: candidates, predicate ASTs with three-valued evaluation
(abstain as a first-class value), compiled labeling functions, signatures,
the five-stage filter bank, and the session orchestrator state
(aliases, committed LF set, per-split label matrices, uncommitted parses).
-/

namespace Babble

/-- Modelled from the spec: a Candidate Context (spec 2.2) — the read-only
per-example view with tokens, precomputed NER tags (possibly absent per
token), and the two marked entity spans X = tokens in the half-open interval
from x1 to x2 and Y = tokens from y1 to y2. The candidate representation is
supplied externally in the real system. -/
structure Candidate where
  tokens : List String
  nerTags : List (Option String)
  x1 : Nat
  x2 : Nat
  y1 : Nat
  y2 : Nat
deriving DecidableEq, Repr

/-- The NER tag at token index i, `none` when the feature is absent
(out of range or no tag computed at that token). -/
def Candidate.getTag (c : Candidate) (i : Nat) : Option String :=
  (c.nerTags.get? i).bind id

/-- The tokens strictly between entity X and entity Y. -/
def Candidate.betweenTokens (c : Candidate) : List String :=
  (c.tokens.drop c.x2).take (c.y1 - c.x2)

/-- Modelled from the spec: the closed tagged-variant predicate AST
(spec 3 Logical Form, spec 9 dynamic dispatch note) restricted to the
primitives the claims exercise: literals, boolean connectives, string
containment, the between-X-and-Y positional predicate, its
alias-expanded disjunction-of-string-equality form, and NER-category
membership at a token. -/
inductive Pred where
  | lit (b : Bool)
  | and (p q : Pred)
  | or (p q : Pred)
  | not (p : Pred)
  | containsWord (w : String)
  | wordBetween (w : String)
  | anyWordBetween (ws : List String)
  | nerAt (i : Nat) (tag : String)
deriving DecidableEq, Repr

/-- Modelled from the spec: predicate evaluation against a candidate
(spec 4.3). Three-valued: `some b` is a boolean verdict, `none` is the
abstain sentinel produced when a primitive's required feature is absent
(here: a missing NER tag); abstention propagates strictly through the
connectives and is a value, never a fault. -/
def evalPred (c : Candidate) : Pred → Option Bool
  | .lit b => some b
  | .and p q =>
    match evalPred c p, evalPred c q with
    | some a, some b => some (a && b)
    | _, _ => none
  | .or p q =>
    match evalPred c p, evalPred c q with
    | some a, some b => some (a || b)
    | _, _ => none
  | .not p => (evalPred c p).map (fun b => !b)
  | .containsWord w => some (c.tokens.contains w)
  | .wordBetween w => some (c.betweenTokens.contains w)
  | .anyWordBetween ws => some (ws.any (fun w => c.betweenTokens.contains w))
  | .nerAt i tag =>
    match c.getTag i with
    | some t => some (t == tag)
    | none => none

/-- Modelled from the spec: the labeling-function compiler (spec 4.3).
A compiled parse returns the bound class label when the predicate holds and
the reserved abstain code 0 otherwise (including when evaluation abstains):
`return label if predicate else abstain`. -/
def lfEval (pr : Pred) (label : Nat) (c : Candidate) : Nat :=
  match evalPred c pr with
  | some true => label
  | _ => 0

/-- Modelled from the spec: a parse (spec 3 Logical Form) — a typed AST
bound to the asserted class label, remembering the originating
explanation's name and its anchor candidate for consistency checking. -/
structure Parse where
  expName : String
  label : Nat
  pred : Pred
  anchor : Candidate
deriving DecidableEq, Repr

/-- The compiled labeling function of a parse. -/
def Parse.lf (p : Parse) (c : Candidate) : Nat :=
  lfEval p.pred p.label c

/-- Modelled from the spec: the signature of an LF over a split (spec 3) —
one entry per candidate, the LF's output (label or abstain=0). -/
def signature (split : List Candidate) (p : Parse) : List Nat :=
  split.map p.lf

/-- Non-abstain count of a parse's signature over a split (its coverage count). -/
def coverageCount (split : List Candidate) (p : Parse) : Nat :=
  (signature split p).countP (fun x => x != 0)

/-- Coverage fraction as reported by analyze: non-abstain count over split size. -/
def coverageFrac (split : List Candidate) (p : Parse) : ℚ :=
  (coverageCount split p : ℚ) / (split.length : ℚ)

/-- A deterministic textual serialization of a predicate AST, used as the
comparison key for canonicalized-AST equality. -/
def serializePred : Pred → String
  | .lit b => "lit:" ++ toString b
  | .and p q => "and(" ++ serializePred p ++ "," ++ serializePred q ++ ")"
  | .or p q => "or(" ++ serializePred p ++ "," ++ serializePred q ++ ")"
  | .not p => "not(" ++ serializePred p ++ ")"
  | .containsWord w => "contains(" ++ w ++ ")"
  | .wordBetween w => "between(" ++ w ++ ")"
  | .anyWordBetween ws => "anybetween(" ++ String.intercalate "," ws ++ ")"
  | .nerAt i tag => "ner(" ++ toString i ++ "," ++ tag ++ ")"

/-- Modelled from the spec: AST canonicalization (spec 3) — argument order
inside commutative nodes is normalized before comparison. -/
def canonical : Pred → Pred
  | .and p q =>
    let p' := canonical p
    let q' := canonical q
    if serializePred p' ≤ serializePred q' then .and p' q' else .and q' p'
  | .or p q =>
    let p' := canonical p
    let q' := canonical q
    if serializePred p' ≤ serializePred q' then .or p' q' else .or q' p'
  | .not p => .not (canonical p)
  | p => p

/-- The semantic-identity key of a parse: asserted label plus the
canonicalized AST's serialization. -/
def parseKey (p : Parse) : String :=
  toString p.label ++ ":" ++ serializePred (canonical p.pred)

/-- Modelled from the spec: a Filter Decision (spec 3) — a removed parse
together with the removing stage's reason code. -/
structure FilterDecision where
  parse : Parse
  reason : String
deriving DecidableEq, Repr

/-- First-occurrence deduplication by key: keeps a parse when its key is not
among the already-seen keys, records it as removed otherwise. -/
def dedupByKey {κ : Type} [DecidableEq κ] (key : Parse → κ) (seen : List κ) :
    List Parse → List Parse × List Parse
  | [] => ([], [])
  | p :: rest =>
    if key p ∈ seen then
      ((dedupByKey key seen rest).1, p :: (dedupByKey key seen rest).2)
    else
      (p :: (dedupByKey key (key p :: seen) rest).1,
        (dedupByKey key (key p :: seen) rest).2)

/-- Modelled from the spec: DuplicateSemanticsFilter (spec 4.4 stage 1) —
collapses parses with identical canonicalized ASTs within the batch, first
occurrence kept, and removes duplicates of previously committed LFs
(their keys seed the seen set). -/
def duplicateSemanticsFilter (committedKeys : List String) (ps : List Parse) :
    List Parse × List FilterDecision :=
  ((dedupByKey parseKey committedKeys ps).1,
   (dedupByKey parseKey committedKeys ps).2.map
     (fun p => ⟨p, "duplicate semantics"⟩))

/-- ConsistencyFilter keep condition: the parse's compiled LF, on its own
anchor candidate, returns exactly the asserted label. -/
def consistencyKeep (p : Parse) : Bool :=
  p.lf p.anchor == p.label

/-- Modelled from the spec: ConsistencyFilter (spec 4.4 stage 2) — removes a
parse that abstains on, or disagrees with, the label asserted by its
originating explanation, judged on its own anchor candidate. -/
def consistencyFilter (ps : List Parse) : List Parse × List FilterDecision :=
  (ps.filter consistencyKeep,
   (ps.filter (fun p => !consistencyKeep p)).map
     (fun p => ⟨p, "inconsistent with anchor example"⟩))

/-- UniformSignatureFilter keep condition: the signature over the split has
at least one abstain and at least one non-abstain entry. -/
def uniformKeep (split : List Candidate) (p : Parse) : Bool :=
  (signature split p).any (fun x => x == 0) &&
    (signature split p).any (fun x => x != 0)

/-- Modelled from the spec: UniformSignatureFilter (spec 4.4 stage 3) —
removes parses whose signature abstains everywhere ("None") or never
abstains ("All"), both degenerate. -/
def uniformSignatureFilter (split : List Candidate) (ps : List Parse) :
    List Parse × List FilterDecision :=
  (ps.filter (uniformKeep split),
   (ps.filter (fun p => !uniformKeep split p)).map
     (fun p => ⟨p, "uniform signature"⟩))

/-- Modelled from the spec: DuplicateSignatureFilter (spec 4.4 stage 4) —
removes parses whose signature vector exactly matches an earlier surviving
parse's signature, first one wins. -/
def duplicateSignatureFilter (split : List Candidate) (ps : List Parse) :
    List Parse × List FilterDecision :=
  ((dedupByKey (signature split) [] ps).1,
   (dedupByKey (signature split) [] ps).2.map
     (fun p => ⟨p, "duplicate signature"⟩))

/-- LowestCoverageFilter keep condition relative to a batch: no parse of the
same explanation in the batch has strictly larger coverage. -/
def lowestCoverageKeep (split : List Candidate) (ps : List Parse) (p : Parse) : Bool :=
  ps.all (fun q => q.expName != p.expName ||
    coverageCount split q ≤ coverageCount split p)

/-- Modelled from the spec: LowestCoverageFilter (spec 4.4 stage 5) — among
parses tracing back to the same explanation, keeps only the
highest-coverage ones; ties are retained. -/
def lowestCoverageFilter (split : List Candidate) (ps : List Parse) :
    List Parse × List FilterDecision :=
  (ps.filter (lowestCoverageKeep split ps),
   (ps.filter (fun p => !lowestCoverageKeep split ps p)).map
     (fun p => ⟨p, "lowest coverage"⟩))

/-- Modelled from the spec: the filter bank (spec 4.4) — the ordered
five-stage pipeline; each stage consumes the prior stage's survivors and
every removal decision is accumulated for reporting. -/
def applyFilterBank (committedKeys : List String) (split : List Candidate)
    (ps : List Parse) : List Parse × List FilterDecision :=
  let s1 := duplicateSemanticsFilter committedKeys ps
  let s2 := consistencyFilter s1.1
  let s3 := uniformSignatureFilter split s2.1
  let s4 := duplicateSignatureFilter split s3.1
  let s5 := lowestCoverageFilter split s4.1
  (s5.1, s1.2 ++ s2.2 ++ s3.2 ++ s4.2 ++ s5.2)

/-- Modelled from the spec: a surface condition as produced by the semantic
parser (spec 4.2) before alias expansion — either a fully resolved
predicate or a reference to a named alias used in the between-X-and-Y
template, closed under the boolean connectives. -/
inductive Cond where
  | base (p : Pred)
  | aliasBetween (name : String)
  | and (c d : Cond)
  | or (c d : Cond)
  | not (c : Cond)
deriving DecidableEq, Repr

/-- The alias map registered so far; a name may appear several times, its
member set is the union of all registrations. -/
def lookupAlias (aliases : List (String × List String)) (name : String) :
    List String :=
  (aliases.filter (fun a => a.1 == name)).flatMap (fun a => a.2)

/-- Modelled from the spec: alias expansion at parse time (spec 4.1) — a
registered alias denotes a disjunction of string equalities over its
member set, baked into the parse's AST so later grammar changes do not
retroactively alter existing parses. -/
def expandCond (aliases : List (String × List String)) : Cond → Pred
  | .base p => p
  | .aliasBetween name => .anyWordBetween (lookupAlias aliases name)
  | .and c d => .and (expandCond aliases c) (expandCond aliases d)
  | .or c d => .or (expandCond aliases c) (expandCond aliases d)
  | .not c => .not (expandCond aliases c)

/-- Modelled from the spec: an Explanation (spec 3) — name, asserted class
label, condition, anchor candidate. The semantic parser's ambiguity is
modelled by the condition carrying the list of candidate readings it
derives (spec 4.2: every grammatically valid derivation is returned). -/
structure Explanation where
  name : String
  label : Nat
  conditions : List Cond
  anchor : Candidate
deriving DecidableEq, Repr

/-- Modelled from the spec: the semantic parser's output for one explanation
(spec 4.2) — one parse per candidate reading, each bound to the
explanation's label and anchor, with aliases expanded under the current
grammar. -/
def parseExplanation (aliases : List (String × List String))
    (e : Explanation) : List Parse :=
  e.conditions.map (fun cond => ⟨e.name, e.label, expandCond aliases cond, e.anchor⟩)

/-- Modelled from the spec: the Session Orchestrator's state (spec 4.5) —
grammar aliases, the committed LF set, one label matrix per split (a list
of integer-coded columns, abstain = 0), the surviving parses of the most
recent apply that are not yet committed, the dataset splits, and the
session seed. -/
structure BabbleState where
  aliases : List (String × List String)
  committed : List Parse
  matrices : List (List (List Nat))
  tempParses : List Parse
  splits : List (List Candidate)
  seed : Nat
deriving Repr

/-- The split the filter bank evaluates signatures over (split 0, the
unlabeled training split). -/
def BabbleState.trainSplit (st : BabbleState) : List Candidate :=
  st.splits.headD []

/-- Modelled from the spec: `apply` (spec 4.5) — parses the submitted
explanations, runs the filter bank against the committed-LF context, and
replaces the uncommitted parse set with the survivors; committed state is
not mutated. -/
def applyExp (st : BabbleState) (es : List Explanation) :
    BabbleState × List Parse × List FilterDecision :=
  let res :=
    applyFilterBank (st.committed.map parseKey) st.trainSplit
      (es.flatMap (parseExplanation st.aliases))
  ({ st with tempParses := res.1 }, res.1, res.2)

/-- Modelled from the spec: `add_aliases` (spec 4.5) — extends the grammar
with new alias registrations and touches nothing else. -/
def addAliases (st : BabbleState) (m : List (String × List String)) :
    BabbleState :=
  { st with aliases := st.aliases ++ m }

/-- Appends, to each split's matrix, one signature column per newly
committed parse, evaluated over that split. -/
def appendCols : List (List (List Nat)) → List (List Candidate) →
    List Parse → List (List (List Nat))
  | [], _, _ => []
  | M :: Ms, [], _ => M :: Ms
  | M :: Ms, s :: ss, ps =>
    (M ++ ps.map (signature s)) :: appendCols Ms ss ps

/-- Modelled from the spec: `commit` with no arguments (spec 4.5) — appends
the most recently applied surviving parses to the permanent LF set,
appends their label-matrix columns per split, and clears the uncommitted
set. -/
def commit (st : BabbleState) : BabbleState :=
  { st with
    committed := st.committed ++ st.tempParses,
    matrices := appendCols st.matrices st.splits st.tempParses,
    tempParses := [] }

/-- Modelled from the spec: `get_label_matrix(split)` (spec 4.5) — the
read accessor over the orchestrator-owned per-split matrix. -/
def getLabelMatrix (st : BabbleState) (split : Nat) : List (List Nat) :=
  (st.matrices.get? split).getD []

/-! ## Lemmas about first-occurrence deduplication and filtering -/

theorem dedupByKey_fst_sublist {κ : Type} [DecidableEq κ] (key : Parse → κ)
    (seen : List κ) (l : List Parse) : List.Sublist (dedupByKey key seen l).1 l := by
  induction l generalizing seen with
  | nil => simp [dedupByKey]
  | cons p rest ih =>
    simp only [dedupByKey]
    split
    · exact (ih seen).cons p
    · exact (ih _).cons₂ p

theorem dedupByKey_fst_spec {κ : Type} [DecidableEq κ] (key : Parse → κ)
    (seen : List κ) (l : List Parse) :
    ((dedupByKey key seen l).1.map key).Nodup ∧
      ∀ p ∈ (dedupByKey key seen l).1, key p ∉ seen := by
  induction l generalizing seen with
  | nil => simp [dedupByKey]
  | cons p rest ih =>
    simp only [dedupByKey]
    split
    · exact ih seen
    · rename_i hns
      obtain ⟨hnd, hmem⟩ := ih (key p :: seen)
      refine ⟨?_, ?_⟩
      · simp only [List.map_cons, List.nodup_cons]
        refine ⟨?_, hnd⟩
        intro hk
        obtain ⟨q, hq, hkq⟩ := List.mem_map.mp hk
        exact (hmem q hq) (by simp [hkq])
      · intro q hq
        rcases List.mem_cons.mp hq with h | h
        · exact h ▸ hns
        · exact fun hrr => (hmem q h) (List.mem_cons_of_mem _ hrr)

theorem dedupByKey_eq_self {κ : Type} [DecidableEq κ] (key : Parse → κ)
    (l : List Parse) :
    ∀ seen : List κ, (∀ p ∈ l, key p ∉ seen) → (l.map key).Nodup →
      dedupByKey key seen l = (l, []) := by
  induction l with
  | nil => intro seen _ _; simp [dedupByKey]
  | cons p rest ih =>
    intro seen h1 h2
    have hp : key p ∉ seen := h1 p (List.mem_cons_self p rest)
    have h2' : (key p :: rest.map key).Nodup := by
      simpa only [List.map_cons] using h2
    have hnodup := List.nodup_cons.mp h2'
    simp only [dedupByKey, if_neg hp]
    rw [ih (key p :: seen) ?_ hnodup.2]
    intro q hq
    simp only [List.mem_cons]
    rintro (h | h)
    · exact hnodup.1 (h ▸ List.mem_map_of_mem key hq)
    · exact h1 q (List.mem_cons_of_mem _ hq) h

theorem dedupByKey_mem {κ : Type} [DecidableEq κ] (key : Parse → κ)
    (l : List Parse) (p : Parse) :
    ∀ seen : List κ, p ∈ l →
      p ∈ (dedupByKey key seen l).1 ∨ p ∈ (dedupByKey key seen l).2 := by
  induction l with
  | nil => intro seen h; simp at h
  | cons q rest ih =>
    intro seen hp
    simp only [dedupByKey]
    split
    · rcases List.mem_cons.mp hp with h | h
      · exact Or.inr (h ▸ List.mem_cons_self q _)
      · rcases ih seen h with h' | h'
        · exact Or.inl h'
        · exact Or.inr (List.mem_cons_of_mem _ h')
    · rcases List.mem_cons.mp hp with h | h
      · exact Or.inl (h ▸ List.mem_cons_self q _)
      · rcases ih _ h with h' | h'
        · exact Or.inl (List.mem_cons_of_mem _ h')
        · exact Or.inr h'

theorem mem_filter_or_not {α : Type} (f : α → Bool) (l : List α) (p : α)
    (hp : p ∈ l) : p ∈ l.filter f ∨ p ∈ l.filter (fun x => !f x) := by
  by_cases h : f p = true
  · exact Or.inl (List.mem_filter.mpr ⟨hp, h⟩)
  · exact Or.inr (List.mem_filter.mpr ⟨hp, by simp [h]⟩)

/-! ## Stage-level characterizations -/

theorem duplicateSemanticsFilter_eq_self (ck : List String) (l : List Parse)
    (h1 : ∀ p ∈ l, parseKey p ∉ ck) (h2 : (l.map parseKey).Nodup) :
    duplicateSemanticsFilter ck l = (l, []) := by
  simp [duplicateSemanticsFilter, dedupByKey_eq_self parseKey l ck h1 h2]

theorem duplicateSignatureFilter_eq_self (split : List Candidate)
    (l : List Parse) (h : (l.map (signature split)).Nodup) :
    duplicateSignatureFilter split l = (l, []) := by
  simp [duplicateSignatureFilter,
    dedupByKey_eq_self (signature split) l [] (by simp) h]

theorem consistencyFilter_eq_self (l : List Parse)
    (h : ∀ p ∈ l, consistencyKeep p = true) :
    consistencyFilter l = (l, []) := by
  simp only [consistencyFilter]
  rw [List.filter_eq_self.mpr h, List.filter_eq_nil_iff.mpr ?_, List.map_nil]
  intro p hp
  simp [h p hp]

theorem uniformSignatureFilter_eq_self (split : List Candidate) (l : List Parse)
    (h : ∀ p ∈ l, uniformKeep split p = true) :
    uniformSignatureFilter split l = (l, []) := by
  simp only [uniformSignatureFilter]
  rw [List.filter_eq_self.mpr h, List.filter_eq_nil_iff.mpr ?_, List.map_nil]
  intro p hp
  simp [h p hp]

theorem lowestCoverageFilter_eq_self (split : List Candidate) (l : List Parse)
    (h : ∀ p ∈ l, lowestCoverageKeep split l p = true) :
    lowestCoverageFilter split l = (l, []) := by
  simp only [lowestCoverageFilter]
  rw [List.filter_eq_self.mpr h, List.filter_eq_nil_iff.mpr ?_, List.map_nil]
  intro p hp
  simp [h p hp]

/-- The lowest-coverage keep condition is preserved when the comparison batch
shrinks. -/
theorem lowestCoverageKeep_anti (split : List Candidate) (l l' : List Parse)
    (hsub : ∀ q ∈ l', q ∈ l) (p : Parse)
    (h : lowestCoverageKeep split l p = true) :
    lowestCoverageKeep split l' p = true := by
  simp only [lowestCoverageKeep, List.all_eq_true] at h ⊢
  exact fun q hq => h q (hsub q hq)

/-! ## The bank's stage outputs -/

def bankStage1 (ck : List String) (ps : List Parse) : List Parse :=
  (duplicateSemanticsFilter ck ps).1

def bankStage2 (ck : List String) (ps : List Parse) : List Parse :=
  (consistencyFilter (bankStage1 ck ps)).1

def bankStage3 (ck : List String) (split : List Candidate) (ps : List Parse) :
    List Parse :=
  (uniformSignatureFilter split (bankStage2 ck ps)).1

def bankStage4 (ck : List String) (split : List Candidate) (ps : List Parse) :
    List Parse :=
  (duplicateSignatureFilter split (bankStage3 ck split ps)).1

def bankStage5 (ck : List String) (split : List Candidate) (ps : List Parse) :
    List Parse :=
  (lowestCoverageFilter split (bankStage4 ck split ps)).1

theorem applyFilterBank_fst (ck : List String) (split : List Candidate)
    (ps : List Parse) :
    (applyFilterBank ck split ps).1 = bankStage5 ck split ps := rfl

theorem bankStage5_sublist4 (ck : List String) (split : List Candidate)
    (ps : List Parse) :
    List.Sublist (bankStage5 ck split ps) (bankStage4 ck split ps) :=
  List.filter_sublist _

theorem bankStage4_sublist3 (ck : List String) (split : List Candidate)
    (ps : List Parse) :
    List.Sublist (bankStage4 ck split ps) (bankStage3 ck split ps) :=
  dedupByKey_fst_sublist _ _ _

theorem bankStage3_sublist2 (ck : List String) (split : List Candidate)
    (ps : List Parse) :
    List.Sublist (bankStage3 ck split ps) (bankStage2 ck ps) :=
  List.filter_sublist _

theorem bankStage2_sublist1 (ck : List String) (ps : List Parse) :
    List.Sublist (bankStage2 ck ps) (bankStage1 ck ps) :=
  List.filter_sublist _

theorem bankStage5_sublist1 (ck : List String) (split : List Candidate)
    (ps : List Parse) :
    List.Sublist (bankStage5 ck split ps) (bankStage1 ck ps) :=
  (((bankStage5_sublist4 ck split ps).trans
    (bankStage4_sublist3 ck split ps)).trans
    (bankStage3_sublist2 ck split ps)).trans
    (bankStage2_sublist1 ck ps)

/-- Every property a parse needs to pass each keep-condition again is
established by the stage that admitted it. -/
theorem bankStage5_mem_spec (ck : List String) (split : List Candidate)
    (ps : List Parse) (p : Parse) (hp : p ∈ bankStage5 ck split ps) :
    parseKey p ∉ ck ∧ consistencyKeep p = true ∧ uniformKeep split p = true ∧
      lowestCoverageKeep split (bankStage5 ck split ps) p = true := by
  have h5 := List.mem_filter.mp hp
  have hmem4 : p ∈ bankStage4 ck split ps := h5.1
  have hmem3 : p ∈ bankStage3 ck split ps :=
    (bankStage4_sublist3 ck split ps).subset hmem4
  have h3 := List.mem_filter.mp hmem3
  have h2 := List.mem_filter.mp h3.1
  have hmem1 : p ∈ bankStage1 ck ps := h2.1
  refine ⟨(dedupByKey_fst_spec parseKey ck ps).2 p hmem1, h2.2, h3.2, ?_⟩
  exact lowestCoverageKeep_anti split (bankStage4 ck split ps) _
    (fun q hq => (bankStage5_sublist4 ck split ps).subset hq) p h5.2

theorem bankStage5_keys_nodup (ck : List String) (split : List Candidate)
    (ps : List Parse) :
    ((bankStage5 ck split ps).map parseKey).Nodup ∧
      ((bankStage5 ck split ps).map (signature split)).Nodup := by
  constructor
  · exact List.Nodup.sublist
      ((bankStage5_sublist1 ck split ps).map parseKey)
      (dedupByKey_fst_spec parseKey ck ps).1
  · exact List.Nodup.sublist
      ((bankStage5_sublist4 ck split ps).map (signature split))
      (dedupByKey_fst_spec (signature split) [] (bankStage3 ck split ps)).1

/-- A parse set on which every stage's keep-condition already holds and whose
keys are duplicate-free passes the whole bank unchanged. -/
theorem applyFilterBank_eq_self (ck : List String) (split : List Candidate)
    (l : List Parse)
    (h1 : ∀ p ∈ l, parseKey p ∉ ck) (h2 : (l.map parseKey).Nodup)
    (h3 : ∀ p ∈ l, consistencyKeep p = true)
    (h4 : ∀ p ∈ l, uniformKeep split p = true)
    (h5 : (l.map (signature split)).Nodup)
    (h6 : ∀ p ∈ l, lowestCoverageKeep split l p = true) :
    applyFilterBank ck split l = (l, []) := by
  simp [applyFilterBank,
    duplicateSemanticsFilter_eq_self ck l h1 h2,
    consistencyFilter_eq_self l h3,
    uniformSignatureFilter_eq_self split l h4,
    duplicateSignatureFilter_eq_self split l h5,
    lowestCoverageFilter_eq_self split l h6]

/-- A compiled parse's output on any candidate is abstain or its bound label. -/
theorem lfEval_zero_or_label (pr : Pred) (label : Nat) (c : Candidate) :
    lfEval pr label c = 0 ∨ lfEval pr label c = label := by
  cases h : evalPred c pr with
  | none => exact Or.inl (by simp [lfEval, h])
  | some b =>
    cases b with
    | false => exact Or.inl (by simp [lfEval, h])
    | true => exact Or.inr (by simp [lfEval, h])

theorem appendCols_get (Ms : List (List (List Nat)))
    (ss : List (List Candidate)) (ps : List Parse) (i : Nat)
    (M : List (List Nat)) (s : List Candidate)
    (hM : Ms.get? i = some M) (hs : ss.get? i = some s) :
    (appendCols Ms ss ps).get? i = some (M ++ ps.map (signature s)) := by
  induction Ms generalizing ss i with
  | nil => simp at hM
  | cons M0 Ms ih =>
    cases ss with
    | nil => simp at hs
    | cons s0 ss =>
      cases i with
      | zero =>
        simp only [List.get?_cons_zero, Option.some.injEq] at hM hs
        subst hM
        subst hs
        simp [appendCols]
      | succ n =>
        simp only [List.get?_cons_succ] at hM hs
        simpa [appendCols] using ih ss n hM hs

theorem lookupAlias_append (a m : List (String × List String))
    (name : String) :
    lookupAlias (a ++ m) name = lookupAlias a name ++ lookupAlias m name := by
  simp [lookupAlias, List.filter_append]

theorem parses_of_tagged (l : List Parse) (r : String) :
    (l.map (fun q => (⟨q, r⟩ : FilterDecision))).map FilterDecision.parse = l := by
  induction l with
  | nil => rfl
  | cons q rest ih => simp [ih]

/-- The bank's decision list, stage by stage. -/
theorem applyFilterBank_snd (ck : List String) (split : List Candidate)
    (ps : List Parse) :
    (applyFilterBank ck split ps).2 =
      (duplicateSemanticsFilter ck ps).2 ++
      (consistencyFilter (bankStage1 ck ps)).2 ++
      (uniformSignatureFilter split (bankStage2 ck ps)).2 ++
      (duplicateSignatureFilter split (bankStage3 ck split ps)).2 ++
      (lowestCoverageFilter split (bankStage4 ck split ps)).2 := rfl

/-- Every submitted parse either survives the bank or appears among the
recorded filter decisions. -/
theorem applyFilterBank_account (ck : List String) (split : List Candidate)
    (ps : List Parse) (p : Parse) (hp : p ∈ ps) :
    p ∈ (applyFilterBank ck split ps).1 ∨
      p ∈ ((applyFilterBank ck split ps).2.map FilterDecision.parse) := by
  rw [applyFilterBank_fst, applyFilterBank_snd]
  simp only [List.map_append, List.mem_append, parses_of_tagged,
    duplicateSemanticsFilter, duplicateSignatureFilter, consistencyFilter,
    uniformSignatureFilter, lowestCoverageFilter]
  rcases dedupByKey_mem parseKey ps p ck hp with h1 | h1
  · rcases mem_filter_or_not consistencyKeep _ p h1 with h2 | h2
    · rcases mem_filter_or_not (uniformKeep split) _ p h2 with h3 | h3
      · rcases dedupByKey_mem (signature split) _ p [] h3 with h4 | h4
        · rcases mem_filter_or_not
            (lowestCoverageKeep split (bankStage4 ck split ps)) _ p h4 with
            h5 | h5
          · exact Or.inl h5
          · exact Or.inr (Or.inr h5)
        · exact Or.inr (Or.inl (Or.inr h4))
      · exact Or.inr (Or.inl (Or.inl (Or.inr h3)))
    · exact Or.inr (Or.inl (Or.inl (Or.inl (Or.inr h2))))
  · exact Or.inr (Or.inl (Or.inl (Or.inl (Or.inl h1))))

/-! ## Concrete instances (spec 8 Scenario A shape) used by witnesses -/

/-- Anchor candidate: "Alice married Bob", X = Alice, Y = Bob; the word
"married" lies strictly between the two spans; no NER tag on token 1. -/
def candA : Candidate :=
  ⟨["Alice", "married", "Bob"], [some "PERSON", none, some "PERSON"], 0, 1, 2, 3⟩

/-- A second candidate where "married" does not occur between X and Y. -/
def candB : Candidate :=
  ⟨["Alice", "met", "Bob"], [some "PERSON", none, some "PERSON"], 0, 1, 2, 3⟩

/-- A candidate with no NER tags at all. -/
def candNoTag : Candidate :=
  ⟨["Alice", "married", "Bob"], [none, none, none], 0, 1, 2, 3⟩

/-- The evaluated split. -/
def demoSplit : List Candidate := [candA, candB]

/-- The parse of Scenario A: label 1 when "married" is between X and Y. -/
def parseA : Parse := ⟨"LF_married", 1, .wordBetween "married", candA⟩

/-- A session state holding the demo split with an empty matrix and parseA
surviving uncommitted. -/
def demoState : BabbleState :=
  ⟨[("spouse", ["husband", "wife"])], [], [[]], [parseA], [demoSplit], 321⟩

end Babble

namespace Babble

/-! ## Claim theorems -/

/-- C1: the filter bank applied by apply is an ordered pipeline of exactly
five stages in the fixed order DuplicateSemanticsFilter, ConsistencyFilter,
UniformSignatureFilter, DuplicateSignatureFilter, LowestCoverageFilter; each
stage consumes only the prior stage's surviving parse set, and every removed
parse is recorded in the returned filtered-out decision set. -/
theorem filterBank_pipeline_order_and_accounting (ck : List String)
    (split : List Candidate) (ps : List Parse) (p : Parse) (hp : p ∈ ps) :
    (applyFilterBank ck split ps).1 =
      (lowestCoverageFilter split
        (duplicateSignatureFilter split
          (uniformSignatureFilter split
            (consistencyFilter
              (duplicateSemanticsFilter ck ps).1).1).1).1).1 ∧
    (p ∈ (applyFilterBank ck split ps).1 ∨
      p ∈ ((applyFilterBank ck split ps).2.map FilterDecision.parse)) :=
  ⟨rfl, applyFilterBank_account ck split ps p hp⟩

theorem filterBank_pipeline_order_and_accounting_witness :
    (applyFilterBank [] demoSplit [parseA]).1 =
      (lowestCoverageFilter demoSplit
        (duplicateSignatureFilter demoSplit
          (uniformSignatureFilter demoSplit
            (consistencyFilter
              (duplicateSemanticsFilter [] [parseA]).1).1).1).1).1 ∧
    (parseA ∈ (applyFilterBank [] demoSplit [parseA]).1 ∨
      parseA ∈ ((applyFilterBank [] demoSplit [parseA]).2.map
        FilterDecision.parse)) :=
  filterBank_pipeline_order_and_accounting [] demoSplit [parseA] parseA
    (by simp)

/-- C2: every parse surviving the ConsistencyFilter stage evaluates, on the
anchor candidate of its originating explanation, to exactly the asserted
label — never abstain (when the asserted label is a class label, i.e.
nonzero) and never a different label; conversely a parse that abstains on or
disagrees with its anchor is removed at this stage. -/
theorem consistencyFilter_sound (l : List Parse) (p : Parse) :
    (p ∈ (consistencyFilter l).1 →
      p.lf p.anchor = p.label ∧ (p.label ≠ 0 → p.lf p.anchor ≠ 0)) ∧
    (p ∈ l → p.lf p.anchor ≠ p.label →
      p ∈ ((consistencyFilter l).2.map FilterDecision.parse)) := by
  constructor
  · intro hp
    have h := (List.mem_filter.mp hp).2
    have heq : p.lf p.anchor = p.label := by
      simpa [consistencyKeep] using h
    exact ⟨heq, fun hl h0 => hl (heq ▸ h0)⟩
  · intro hpl hne
    simp only [consistencyFilter, parses_of_tagged]
    refine List.mem_filter.mpr ⟨hpl, ?_⟩
    simp [consistencyKeep, hne]

theorem consistencyFilter_sound_witness :
    parseA.lf parseA.anchor = parseA.label ∧ parseA.lf parseA.anchor ≠ 0 := by
  have h := (consistencyFilter_sound [parseA] parseA).1 (by decide)
  exact ⟨h.1, h.2 (by decide)⟩

/-- C3: every parse surviving the UniformSignatureFilter stage has a
signature over the evaluated split with at least one abstain entry and at
least one non-abstain entry; any parse whose signature is all-abstain or
has no abstain at all is removed by that stage. -/
theorem uniformSignatureFilter_sound (split : List Candidate) (l : List Parse)
    (p : Parse) :
    (p ∈ (uniformSignatureFilter split l).1 →
      (∃ x ∈ signature split p, x = 0) ∧ ∃ x ∈ signature split p, x ≠ 0) ∧
    (p ∈ l →
      ((∀ x ∈ signature split p, x = 0) ∨ ∀ x ∈ signature split p, x ≠ 0) →
      p ∈ ((uniformSignatureFilter split l).2.map FilterDecision.parse)) := by
  constructor
  · intro hp
    have h := (List.mem_filter.mp hp).2
    simp only [uniformKeep, Bool.and_eq_true, List.any_eq_true] at h
    obtain ⟨⟨x, hx, hx0⟩, y, hy, hy0⟩ := h
    exact ⟨⟨x, hx, by simpa using hx0⟩, ⟨y, hy, by simpa using hy0⟩⟩
  · intro hpl hdeg
    simp only [uniformSignatureFilter, parses_of_tagged]
    refine List.mem_filter.mpr ⟨hpl, ?_⟩
    simp only [Bool.not_eq_true', uniformKeep, Bool.and_eq_false_iff,
      List.any_eq_false]
    rcases hdeg with h | h
    · exact Or.inr (fun x hx => by simpa using h x hx)
    · exact Or.inl (fun x hx => by simpa using h x hx)

theorem uniformSignatureFilter_sound_witness :
    (∃ x ∈ signature demoSplit parseA, x = 0) ∧
      ∃ x ∈ signature demoSplit parseA, x ≠ 0 :=
  (uniformSignatureFilter_sound demoSplit [parseA] parseA).1 (by decide)

/-- C4: a compiled labeling function is total and pure: on every candidate it
returns either the bound class label or the abstain sentinel 0; and a
primitive whose required feature is absent (here an NER tag missing at the
queried token) evaluates to the abstain value, not an error. -/
theorem lf_total_and_abstain_on_missing_feature (pr : Pred) (label : Nat)
    (c : Candidate) (i : Nat) (tag : String) :
    (lfEval pr label c = 0 ∨ lfEval pr label c = label) ∧
    (c.getTag i = none →
      evalPred c (.nerAt i tag) = none ∧ lfEval (.nerAt i tag) label c = 0) := by
  constructor
  · exact lfEval_zero_or_label pr label c
  · intro h
    constructor
    · simp [evalPred, h]
    · simp [lfEval, evalPred, h]

theorem lf_total_and_abstain_on_missing_feature_witness :
    (lfEval (.nerAt 1 "PERSON") 1 candNoTag = 0 ∨
      lfEval (.nerAt 1 "PERSON") 1 candNoTag = 1) ∧
    (evalPred candNoTag (.nerAt 1 "PERSON") = none ∧
      lfEval (.nerAt 1 "PERSON") 1 candNoTag = 0) := by
  have h := lf_total_and_abstain_on_missing_feature (.nerAt 1 "PERSON") 1
    candNoTag 1 "PERSON"
  exact ⟨h.1, h.2 (by decide)⟩

/-- An auxiliary explanation for the orchestrator witnesses. -/
def expA : Explanation :=
  ⟨"LF_married", 1, [.base (.wordBetween "married")], candA⟩

/-- C5: the per-split label matrix is append-only across commits — commit
appends one integer-coded column (abstain = 0, otherwise the parse's label)
per newly committed labeling function, while the columns of previously
committed LFs are untouched; apply and add_aliases never touch the
matrices. -/
theorem labelMatrix_append_only (st : BabbleState)
    (m : List (String × List String)) (es : List Explanation) (i : Nat)
    (M : List (List Nat)) (s : List Candidate)
    (hM : st.matrices.get? i = some M) (hs : st.splits.get? i = some s) :
    ((commit st).matrices.get? i =
      some (M ++ st.tempParses.map (signature s))) ∧
    ((applyExp st es).1.matrices = st.matrices) ∧
    ((addAliases st m).matrices = st.matrices) ∧
    (∀ p ∈ st.tempParses, ∀ x ∈ signature s p, x = 0 ∨ x = p.label) := by
  refine ⟨appendCols_get st.matrices st.splits st.tempParses i M s hM hs,
    rfl, rfl, ?_⟩
  intro p hp x hx
  obtain ⟨c, _, hxc⟩ := List.mem_map.mp hx
  exact hxc ▸ lfEval_zero_or_label p.pred p.label c

theorem labelMatrix_append_only_witness :
    ((commit demoState).matrices.get? 0 =
      some ([] ++ demoState.tempParses.map (signature demoSplit))) ∧
    ((applyExp demoState [expA]).1.matrices = demoState.matrices) ∧
    ((addAliases demoState [("kin", ["brother"])]).matrices =
      demoState.matrices) ∧
    (∀ p ∈ demoState.tempParses, ∀ x ∈ signature demoSplit p,
      x = 0 ∨ x = p.label) :=
  labelMatrix_append_only demoState [("kin", ["brother"])] [expA] 0 []
    demoSplit (by decide) (by decide)

/-- C6: registering an alias is monotone — it only enlarges the member set a
predicate built from the alias matches against, so any candidate matched
before registration is still matched after — and it invalidates nothing:
the committed LF set, the label matrices, and the existing surviving parses
are unchanged. -/
theorem addAliases_monotone (st : BabbleState)
    (m : List (String × List String)) (name : String) (c : Candidate) :
    (∀ w ∈ lookupAlias st.aliases name,
      w ∈ lookupAlias (addAliases st m).aliases name) ∧
    (evalPred c (expandCond st.aliases (.aliasBetween name)) = some true →
      evalPred c (expandCond (addAliases st m).aliases (.aliasBetween name)) =
        some true) ∧
    (addAliases st m).committed = st.committed ∧
    (addAliases st m).matrices = st.matrices ∧
    (addAliases st m).tempParses = st.tempParses := by
  refine ⟨?_, ?_, rfl, rfl, rfl⟩
  · intro w hw
    have : (addAliases st m).aliases = st.aliases ++ m := rfl
    rw [this, lookupAlias_append]
    exact List.mem_append_left _ hw
  · intro h
    have haa : (addAliases st m).aliases = st.aliases ++ m := rfl
    simp only [expandCond, evalPred, Option.some.injEq, List.any_eq_true]
      at h ⊢
    obtain ⟨w, hw, hcw⟩ := h
    refine ⟨w, ?_, hcw⟩
    rw [haa, lookupAlias_append]
    exact List.mem_append_left _ hw

theorem addAliases_monotone_witness :
    (∀ w ∈ lookupAlias demoState.aliases "spouse",
      w ∈ lookupAlias
        (addAliases demoState [("spouse", ["fiance"])]).aliases "spouse") ∧
    (evalPred candA (expandCond demoState.aliases (.aliasBetween "spouse")) =
        some true →
      evalPred candA (expandCond
        (addAliases demoState [("spouse", ["fiance"])]).aliases
        (.aliasBetween "spouse")) = some true) ∧
    (addAliases demoState [("spouse", ["fiance"])]).committed =
      demoState.committed ∧
    (addAliases demoState [("spouse", ["fiance"])]).matrices =
      demoState.matrices ∧
    (addAliases demoState [("spouse", ["fiance"])]).tempParses =
      demoState.tempParses :=
  addAliases_monotone demoState [("spouse", ["fiance"])] "spouse" candA

/-- C7: the filter bank is idempotent — running the full five-stage bank on
the surviving parse set of a previous full run, with the same committed-LF
context and split, removes nothing further and returns the set unchanged. -/
theorem filterBank_idempotent (ck : List String) (split : List Candidate)
    (ps : List Parse) :
    applyFilterBank ck split (applyFilterBank ck split ps).1 =
      ((applyFilterBank ck split ps).1, []) := by
  rw [applyFilterBank_fst]
  refine applyFilterBank_eq_self ck split _ ?_ ?_ ?_ ?_ ?_ ?_
  · exact fun p hp => (bankStage5_mem_spec ck split ps p hp).1
  · exact (bankStage5_keys_nodup ck split ps).1
  · exact fun p hp => (bankStage5_mem_spec ck split ps p hp).2.1
  · exact fun p hp => (bankStage5_mem_spec ck split ps p hp).2.2.1
  · exact (bankStage5_keys_nodup ck split ps).2
  · exact fun p hp => (bankStage5_mem_spec ck split ps p hp).2.2.2

/-- C8: apply is deterministic — two sessions whose grammar (aliases),
committed LF set, dataset splits, and seed agree produce, on the same
explanation, identical surviving parse sets, identical filter decisions,
and identical signatures. -/
theorem apply_deterministic (st1 st2 : BabbleState) (e : Explanation)
    (ha : st1.aliases = st2.aliases) (hc : st1.committed = st2.committed)
    (hs : st1.splits = st2.splits) (_hseed : st1.seed = st2.seed) :
    (applyExp st1 [e]).2 = (applyExp st2 [e]).2 ∧
    ((applyExp st1 [e]).2.1.map (signature st1.trainSplit) =
      (applyExp st2 [e]).2.1.map (signature st2.trainSplit)) := by
  have ht : st1.trainSplit = st2.trainSplit := by
    simp [BabbleState.trainSplit, hs]
  constructor
  · simp [applyExp, ha, hc, ht]
  · simp [applyExp, ha, hc, ht]

theorem apply_deterministic_witness :
    (applyExp demoState [expA]).2 =
      (applyExp { demoState with tempParses := [] } [expA]).2 ∧
    ((applyExp demoState [expA]).2.1.map (signature demoState.trainSplit) =
      (applyExp { demoState with tempParses := [] } [expA]).2.1.map
        (signature ({ demoState with tempParses := [] } :
          BabbleState).trainSplit)) :=
  apply_deterministic demoState { demoState with tempParses := [] } expA
    rfl rfl rfl rfl

/-- C9: apply flushes the previous uncommitted parse set — after a second
apply, the uncommitted set is exactly the second run's survivors (computed
from the unchanged committed context), so a no-argument commit commits only
the parses surviving the most recent apply, never those of an earlier
uncommitted apply. -/
theorem apply_flushes_uncommitted (st : BabbleState)
    (es1 es2 : List Explanation) :
    ((applyExp (applyExp st es1).1 es2).1.tempParses =
      (applyFilterBank (st.committed.map parseKey) st.trainSplit
        (es2.flatMap (parseExplanation st.aliases))).1) ∧
    ((commit (applyExp (applyExp st es1).1 es2).1).committed =
      st.committed ++
        (applyFilterBank (st.committed.map parseKey) st.trainSplit
          (es2.flatMap (parseExplanation st.aliases))).1) :=
  ⟨rfl, rfl⟩

/-- C10: for a committed labeling function the appended label-matrix column
is its signature over the split, its number of non-abstain (nonzero)
entries is its signature's non-abstain count, and that count equals the
coverage fraction reported by analyze multiplied by the split size. -/
theorem commit_column_coverage (st : BabbleState) (i : Nat)
    (M : List (List Nat)) (s : List Candidate)
    (hM : st.matrices.get? i = some M) (hs : st.splits.get? i = some s)
    (p : Parse) (hp : p ∈ st.tempParses) (hn : s.length ≠ 0) :
    ((commit st).matrices.get? i =
      some (M ++ st.tempParses.map (signature s))) ∧
    (signature s p ∈ st.tempParses.map (signature s)) ∧
    ((signature s p).countP (fun x => x != 0) = coverageCount s p) ∧
    (coverageFrac s p * (s.length : ℚ) = (coverageCount s p : ℚ)) := by
  refine ⟨appendCols_get st.matrices st.splits st.tempParses i M s hM hs,
    List.mem_map_of_mem (signature s) hp, rfl, ?_⟩
  rw [coverageFrac, div_mul_cancel₀]
  exact_mod_cast hn

theorem commit_column_coverage_witness :
    ((commit demoState).matrices.get? 0 =
      some ([] ++ demoState.tempParses.map (signature demoSplit))) ∧
    (signature demoSplit parseA ∈
      demoState.tempParses.map (signature demoSplit)) ∧
    ((signature demoSplit parseA).countP (fun x => x != 0) =
      coverageCount demoSplit parseA) ∧
    (coverageFrac demoSplit parseA * (demoSplit.length : ℚ) =
      (coverageCount demoSplit parseA : ℚ)) :=
  commit_column_coverage demoState 0 [] demoSplit (by decide) (by decide)
    parseA (by decide) (by decide)

end Babble
